import Mathlib

/-!
Verification development for the `errsum` error-summarizer core
(`src/parser.js`, `src/grouper.js`).

Strings are modelled as lists of Unicode characters (`Str := List Char`).
The JavaScript regular-expression replacements and scans used by the core
are embedded as direct character-level scanners that follow the backtracking
semantics of the concrete regexes appearing in the source.  JavaScript
`toLowerCase` is modelled on its ASCII fragment (every character the core's
patterns and probes produce is ASCII).
-/

set_option maxHeartbeats 1000000

namespace Errsum

abbrev Str := List Char

/-- Single-quote character (U+0027). -/
def sqC : Char := Char.ofNat 39

/-- Double-quote character (U+0022). -/
def dqC : Char := Char.ofNat 34

/-- Backtick character (U+0060). -/
def bqC : Char := Char.ofNat 96

/-- Backslash character (U+005C). -/
def bsC : Char := Char.ofNat 92

/-- ASCII decimal digit (regex `\d`). -/
def isDigitC (c : Char) : Bool := '0' ≤ c && c ≤ '9'

/-- ASCII letter. -/
def isAlphaC (c : Char) : Bool := ('a' ≤ c && c ≤ 'z') || ('A' ≤ c && c ≤ 'Z')

/-- Regex `\w` (non-unicode mode): `[A-Za-z0-9_]`. -/
def isWordC (c : Char) : Bool := isAlphaC c || isDigitC c || c = '_'

/-- The character class `[\w.-]` used by the path-stripping regexes. -/
def isWdDotDashC (c : Char) : Bool := isWordC c || c = '.' || c = '-'

/-- The quote class `['"`]` of the signature regexes. -/
def isQuoteC (c : Char) : Bool := c = sqC || c = dqC || c = bqC

/-- Hex digit, case-insensitive (`[0-9a-f]` under the `i` flag). -/
def isHexC (c : Char) : Bool :=
  isDigitC c || ('a' ≤ c && c ≤ 'f') || ('A' ≤ c && c ≤ 'F')

/-- JavaScript whitespace (regex `\s`, also the set trimmed by `String.trim`):
tab, LF, VT, FF, CR, space, NBSP, Ogham space, the U+2000–U+200A range,
LS, PS, NNBSP, MMSP, ideographic space and the BOM. -/
def isJsWsC (c : Char) : Bool :=
  let n := c.toNat
  n = 9 || n = 10 || n = 11 || n = 12 || n = 13 || n = 32 ||
  n = 160 || n = 5760 || (8192 ≤ n && n ≤ 8202) ||
  n = 8232 || n = 8233 || n = 8239 || n = 8287 || n = 12288 || n = 65279

/-- ASCII fragment of JavaScript `String.prototype.toLowerCase`. -/
def jsToLowerC (c : Char) : Char :=
  if 'A' ≤ c && c ≤ 'Z' then Char.ofNat (c.toNat + 32) else c

/-- ASCII lower-casing of a whole string. -/
def jsToLower (s : Str) : Str := s.map jsToLowerC

/-- JavaScript `String.prototype.trim`. -/
def jsTrim (s : Str) : Str :=
  ((s.dropWhile isJsWsC).reverse.dropWhile isJsWsC).reverse

/-- Value of a run of decimal digits. -/
def digitsVal (ds : Str) : Nat :=
  ds.foldl (fun a c => a * 10 + (c.toNat - 48)) 0

/-- JavaScript `parseInt(s, 10)` as used on regex captures: skip leading
whitespace, read leading decimal digits; `none` models `NaN`.  (The captures
it is applied to are `\d+` groups, which never carry a sign.) -/
def parseInt10 (s : Str) : Option Nat :=
  let ds := (s.dropWhile isJsWsC).takeWhile isDigitC
  if ds = [] then none else some (digitsVal ds)

/-- `parseInt` lifted to a possibly-undefined capture (`parseInt(undefined)`
is `NaN`, i.e. `none`). -/
def jsParseInt (o : Option Str) : Option Nat := o.bind parseInt10

/-! ### The signature normalizer (`getErrorSignature`, parser.js)

Each regex replacement `sig.replace(re, tok)` with a global regex `re` is
embedded as a scanner: at every position, try to match `re` there (following
the regex's backtracking semantics); on success emit the replacement and
resume after the match, otherwise emit the character and advance by one.
All seven regexes only produce non-empty matches; the driver still carries
the JavaScript rule for empty matches (insert the replacement and advance
one character) so that it is total by construction. -/

/-- One replacement pass, structurally recursive on a step bound.  Every
step consumes at least one character of the suffix, so a bound equal to the
suffix length can never run out; the zero-bound case with a non-empty
suffix is unreachable. -/
def scanReplaceGo (matchAt : Option Char → Str → Option Nat) (repl : Str) :
    Nat → Option Char → Str → Str
  | _, _, [] => []
  | 0, _, _ :: _ => []
  | fuel + 1, prev, c :: rest =>
    match matchAt prev (c :: rest) with
    | none => c :: scanReplaceGo matchAt repl fuel (some c) rest
    | some 0 => repl ++ c :: scanReplaceGo matchAt repl fuel (some c) rest
    | some (len + 1) =>
      repl ++ scanReplaceGo matchAt repl fuel (some ((c :: rest).getD len c))
        ((c :: rest).drop (len + 1))

/-- One replacement pass.  `matchAt prev s` reports the length of the match
of the regex at the head of suffix `s` (`prev` is the character just before
`s`, used by word-boundary assertions). -/
def scanReplace (matchAt : Option Char → Str → Option Nat) (repl : Str)
    (prev : Option Char) (s : Str) : Str :=
  scanReplaceGo matchAt repl s.length prev s

/-- Greedy `(?:\/[\w.-]+)+` on a step bound (each segment consumes at
least two characters, so a bound equal to the suffix length cannot run
out). -/
def posixSegsGo : Nat → Str → Option (Nat × Str)
  | fuel + 1, '/' :: c :: rest =>
    if isWdDotDashC c then
      let run := (c :: rest).takeWhile isWdDotDashC
      let rest2 := (c :: rest).dropWhile isWdDotDashC
      match posixSegsGo fuel rest2 with
      | some (m, r2) => some (1 + run.length + m, r2)
      | none => some (1 + run.length, rest2)
    else none
  | _, _ => none

/-- Greedy `(?:\/[\w.-]+)+`: consume one or more `/`-headed segments,
returning the number of characters consumed and the remaining suffix. -/
def posixSegs (s : Str) : Option (Nat × Str) := posixSegsGo s.length s

/-- Match of `['"`]?(?:\/[\w.-]+)+(?:\/[\w.-]+)?['"`]?` at the head of the
suffix (the trailing optional segment is subsumed by the greedy `+`). -/
def posixPathAt (_prev : Option Char) (s : Str) : Option Nat :=
  match s with
  | [] => none
  | q :: rest =>
    if isQuoteC q then
      match posixSegs rest with
      | some (n, r2) =>
        some (1 + n + (match r2 with | c2 :: _ => if isQuoteC c2 then 1 else 0 | [] => 0))
      | none => none
    else
      match posixSegs s with
      | some (n, r2) =>
        some (n + (match r2 with | c2 :: _ => if isQuoteC c2 then 1 else 0 | [] => 0))
      | none => none

/-- Greedy `(?:[A-Za-z]:\\[\w.-]+)+` on a step bound (each segment
consumes at least four characters). -/
def winSegsGo : Nat → Str → Option (Nat × Str)
  | fuel + 1, a :: b :: c :: d :: rest =>
    if isAlphaC a && b = ':' && c = bsC && isWdDotDashC d then
      let run := (d :: rest).takeWhile isWdDotDashC
      let rest2 := (d :: rest).dropWhile isWdDotDashC
      match winSegsGo fuel rest2 with
      | some (m, r2) => some (3 + run.length + m, r2)
      | none => some (3 + run.length, rest2)
    else none
  | _, _ => none

/-- Greedy `(?:[A-Za-z]:\\[\w.-]+)+` for Windows-style paths. -/
def winSegs (s : Str) : Option (Nat × Str) := winSegsGo s.length s

/-- The optional `(?:\\[\w.-]+)?` tail after the Windows segments. -/
def winTail (s : Str) : Nat × Str :=
  match s with
  | c :: d :: rest =>
    if c = bsC && isWdDotDashC d then
      (1 + ((d :: rest).takeWhile isWdDotDashC).length,
        (d :: rest).dropWhile isWdDotDashC)
    else (0, s)
  | _ => (0, s)

/-- Match of `['"`]?(?:[A-Za-z]:\\[\w.-]+)+(?:\\[\w.-]+)?['"`]?` at the head
of the suffix. -/
def winPathAt (_prev : Option Char) (s : Str) : Option Nat :=
  let core : Str → Option Nat := fun t =>
    match winSegs t with
    | some (n, r2) =>
      let (tn, r3) := winTail r2
      some (n + tn + (match r3 with | c2 :: _ => if isQuoteC c2 then 1 else 0 | [] => 0))
    | none => none
  match s with
  | [] => none
  | q :: rest =>
    if isQuoteC q then
      match core rest with
      | some n => some (1 + n)
      | none => none
    else core s

/-- Consume the literal `w` case-insensitively from the head of `s`. -/
def stripCI : Str → Str → Option Str
  | [], s => some s
  | _ :: _, [] => none
  | w :: ws, c :: cs => if jsToLowerC c = w then stripCI ws cs else none

/-- `word` then `\s*\d+` (the shared tail of the location regex). -/
def locTail (w : Str) (s : Str) : Option Nat :=
  match stripCI w s with
  | none => none
  | some r =>
    let sp := r.takeWhile isJsWsC
    let r2 := r.dropWhile isJsWsC
    let ds := r2.takeWhile isDigitC
    if ds = [] then none else some (w.length + sp.length + ds.length)

/-- Match of `\b(?:line|col|column)\s*\d+` (flags `gi`) at the head of the
suffix.  The alternation is tried in source order (`line`, `col`, `column`);
`\b` holds exactly when the previous character is not a word character,
since the first matched character is always a letter. -/
def locWordAt (prev : Option Char) (s : Str) : Option Nat :=
  let boundary := match prev with | none => true | some p => !isWordC p
  if boundary then
    match locTail ['l', 'i', 'n', 'e'] s with
    | some n => some n
    | none =>
      match locTail ['c', 'o', 'l'] s with
      | some n => some n
      | none => locTail ['c', 'o', 'l', 'u', 'm', 'n'] s
  else none

/-- Match of `:\d+:\d+` at the head of the suffix. -/
def colonPosAt (_prev : Option Char) (s : Str) : Option Nat :=
  match s with
  | ':' :: r =>
    let d1 := r.takeWhile isDigitC
    if d1 = [] then none
    else
      match r.dropWhile isDigitC with
      | ':' :: r2 =>
        let d2 := r2.takeWhile isDigitC
        if d2 = [] then none else some (1 + d1.length + 1 + d2.length)
      | _ => none
  | _ => none

/-- Match of `['"`]([^'"`]{1,50})['"`]` at the head of the suffix: an
opening quote, between 1 and 50 non-quote characters (the distance to the
nearest following quote), and a closing quote of any of the three kinds. -/
def quotedNameAt (_prev : Option Char) (s : Str) : Option Nat :=
  match s with
  | q :: r =>
    if isQuoteC q then
      let d := (r.takeWhile (fun c => !isQuoteC c)).length
      if 1 ≤ d && d ≤ 50 && d < r.length then some (d + 2) else none
    else none
  | [] => none

/-- Match of `\b0x[0-9a-f]+\b` (flags `gi`) at the head of the suffix.  The
trailing `\b` forces the maximal hex run to be followed by a non-word
character (shrinking the greedy run can never restore the boundary). -/
def hexAt (prev : Option Char) (s : Str) : Option Nat :=
  let boundary := match prev with | none => true | some p => !isWordC p
  match s with
  | '0' :: x :: r =>
    if boundary && (x = 'x' || x = 'X') then
      let run := r.takeWhile isHexC
      if run = [] then none
      else
        match r.dropWhile isHexC with
        | [] => some (2 + run.length)
        | c2 :: _ => if isWordC c2 then none else some (2 + run.length)
    else none
  | _ => none

/-- Match of `\b\d{5,}\b` at the head of the suffix. -/
def longNumAt (prev : Option Char) (s : Str) : Option Nat :=
  let boundary := match prev with | none => true | some p => !isWordC p
  if boundary then
    let run := s.takeWhile isDigitC
    if run.length < 5 then none
    else
      match s.dropWhile isDigitC with
      | [] => some run.length
      | c2 :: _ => if isWordC c2 then none else some run.length
  else none

/-- The replacement token `<path>`. -/
def pathTok : Str := ['<', 'p', 'a', 't', 'h', '>']

/-- The replacement token `<loc>`. -/
def locTok : Str := ['<', 'l', 'o', 'c', '>']

/-- The replacement token `:<loc>`. -/
def colonLocTok : Str := [':', '<', 'l', 'o', 'c', '>']

/-- The replacement token `'<name>'` (with single quotes). -/
def nameTok : Str := [sqC, '<', 'n', 'a', 'm', 'e', '>', sqC]

/-- The replacement token `<hex>`. -/
def hexTok : Str := ['<', 'h', 'e', 'x', '>']

/-- The replacement token `<id>`. -/
def idTok : Str := ['<', 'i', 'd', '>']

/-! ### Error records -/

/-- One parsed diagnostic occurrence.  JavaScript records only carry the
fields their extractor sets; absent fields are `none`.  `ty` embeds the
source's `type` field; `raw` and `position` are filled in by the scan loop
of `parseErrors`. -/
structure ErrorRecord where
  file : Option Str := none
  line : Option Nat := none
  column : Option Nat := none
  severity : Option Str := none
  code : Option Str := none
  message : Option Str := none
  function : Option Str := none
  ty : Option Str := none
  raw : Str := []
  position : Nat := 0
deriving DecidableEq, Repr

/-- JavaScript truthiness of an optional string field (`undefined` and the
empty string are falsy). -/
def jsStr (o : Option Str) : Option Str :=
  match o with
  | some s => if s = [] then none else some s
  | none => none

/-- `getErrorSignature` (parser.js): the seven regex replacements, in source
order, then the `[<code>] ` prefix when `error.code` is truthy, then `trim`. -/
def getErrorSignature (error : ErrorRecord) : Str :=
  let sig := error.message.getD []
  let sig := scanReplace posixPathAt pathTok none sig
  let sig := scanReplace winPathAt pathTok none sig
  let sig := scanReplace locWordAt locTok none sig
  let sig := scanReplace colonPosAt colonLocTok none sig
  let sig := scanReplace quotedNameAt nameTok none sig
  let sig := scanReplace hexAt hexTok none sig
  let sig := scanReplace longNumAt idTok none sig
  let sig :=
    match jsStr error.code with
    | some c => '[' :: c ++ (']' :: ' ' :: sig)
    | none => sig
  jsTrim sig

/-! ### Grouping (`grouper.js`) -/

/-- A group of error records sharing a signature.  `files` embeds the
insertion-ordered JavaScript `Set` as a duplicate-free list. -/
structure Group where
  signature : Str
  count : Nat
  errors : List ErrorRecord
  files : List Str
  representative : ErrorRecord
  code : Option Str
  ty : Option Str
  severity : Option Str
deriving DecidableEq, Repr

/-- Insertion-ordered `Set.add`. -/
def setAdd (l : List Str) (f : Str) : List Str :=
  if f ∈ l then l else l ++ [f]

/-- The group created for a first-seen signature. -/
def newGroup (sig : Str) (error : ErrorRecord) : Group :=
  { signature := sig
    count := 1
    errors := [error]
    files := match jsStr error.file with | some f => [f] | none => []
    representative := error
    code := error.code
    ty := error.ty
    severity := error.severity }

/-- Update of an existing group: bump the count, append the record, track a
truthy, not-yet-seen file. -/
def bumpGroup (g : Group) (error : ErrorRecord) : Group :=
  { g with
    count := g.count + 1
    errors := g.errors ++ [error]
    files :=
      match jsStr error.file with
      | some f => if f ∈ g.files then g.files else g.files ++ [f]
      | none => g.files }

/-- One step of the signature `Map`: update the (unique) entry with the
record's signature, or append a fresh group at the end (insertion order). -/
def addRecord : List Group → ErrorRecord → List Group
  | [], error => [newGroup (getErrorSignature error) error]
  | g :: gs, error =>
    if g.signature = getErrorSignature error then bumpGroup g error :: gs
    else g :: addRecord gs error

/-- The insertion-ordered group list built by the `for` loop of
`groupErrors` (the `Map` of signatures, in insertion order). -/
def buildGroups (errors : List ErrorRecord) : List Group :=
  errors.foldl addRecord []

/-- Stable insertion for the descending-count sort: a group is placed before
the first group whose count is less than or equal to its own, which keeps
earlier-seen groups ahead on ties.  This is the unique stable sort, i.e. the
result of `Array.prototype.sort((a, b) => b.count - a.count)` (stable per
ECMAScript 2019). -/
def insertByCount (g : Group) : List Group → List Group
  | [] => [g]
  | h :: t => if h.count ≤ g.count then g :: h :: t else h :: insertByCount g t

/-- Stable sort by `count`, descending. -/
def sortByCountDesc (l : List Group) : List Group :=
  l.foldr insertByCount []

/-- Options of `groupErrors` (`opts = {}` by default; `top` absent is
`none`).  JavaScript numbers can be negative, hence `Int`. -/
structure GroupOpts where
  top : Option Int := none
deriving DecidableEq, Repr

/-- `groupErrors` (grouper.js): group by signature, sort by count
descending, and truncate to `opts.top` when that option is truthy and
positive (`if (opts.top && opts.top > 0)`). -/
def groupErrors (errors : List ErrorRecord) (opts : GroupOpts := {}) : List Group :=
  let result := sortByCountDesc (buildGroups errors)
  match opts.top with
  | some n => if 0 < n then result.take n.toNat else result
  | none => result

/-! ### Similarity and fuzzy merging -/

/-- Maximal runs of word characters of a string: the token list produced by
`str.split(/\W+/).filter(Boolean)` (splitting on maximal non-word runs and
dropping the empty fragments that arise at the ends). -/
def wordRuns : Str → List Str
  | [] => []
  | c :: t =>
    if isWordC c then
      (c :: t.takeWhile isWordC) :: wordRuns (t.dropWhile isWordC)
    else wordRuns t
termination_by s => s.length
decreasing_by
  all_goals simp_wf
  all_goals first
    | omega
    | exact Nat.lt_succ_of_le ((List.dropWhile_sublist _).length_le)

/-- Insertion-ordered deduplication: the element list of `new Set(l)`. -/
def dedupFirst : List Str → List Str
  | [] => []
  | a :: t => a :: dedupFirst (t.filter (fun x => x ≠ a))
termination_by l => l.length
decreasing_by
  simp_wf
  try simp only [List.length_cons]
  exact Nat.lt_succ_of_le (List.length_filter_le _ _)

/-- The token set of a string: `new Set(str.toLowerCase().split(/\W+/).filter(Boolean))`. -/
def tokenSet (s : Str) : List Str := dedupFirst (wordRuns (jsToLower s))

/-- `similarity` (grouper.js).  The float comparison
`Math.abs(len1 - len2) > Math.max(len1, len2) * 0.5` is exact at these
magnitudes and is embedded over `ℚ`. -/
def similarity (str1 str2 : Str) : ℚ :=
  if str1 = str2 then 1
  else if str1 = [] ∨ str2 = [] then 0
  else
    let len1 := str1.length
    let len2 := str2.length
    if ((max len1 len2 : ℚ) * (1 / 2) < ((len1 : ℤ) - (len2 : ℤ)).natAbs) then 0
    else
      let tokens1 := tokenSet str1
      let tokens2 := tokenSet str2
      let intersection := tokens1.countP (fun t => t ∈ tokens2)
      let union := tokens1.length + tokens2.length - intersection
      if union = 0 then 0 else (intersection : ℚ) / union

/-- Sum of the `count` fields of a group list. -/
def sumCounts (l : List Group) : Nat := (l.map Group.count).sum

/-- The merge step of `mergeSimilarGroups` for one anchor group: later
not-yet-consumed groups whose signature scores at least `threshold` against
the anchor's (unchanged) signature are absorbed in order — counts summed,
error lists concatenated, file sets unioned — and removed from further
consideration; the remaining groups are processed the same way. -/
def mergeScan (threshold : ℚ) : List Group → List Group
  | [] => []
  | g :: rest =>
    let absorbed := rest.filter (fun h => threshold ≤ similarity g.signature h.signature)
    let kept := rest.filter (fun h => ¬ threshold ≤ similarity g.signature h.signature)
    { g with
      count := g.count + sumCounts absorbed
      errors := g.errors ++ absorbed.foldl (fun acc h => acc ++ h.errors) []
      files := absorbed.foldl (fun acc h => h.files.foldl setAdd acc) g.files } ::
      mergeScan threshold kept
termination_by l => l.length
decreasing_by
  simp_wf
  try simp only [List.length_cons]
  exact Nat.lt_succ_of_le (List.length_filter_le _ _)

/-- `mergeSimilarGroups` (grouper.js): the greedy single pass above followed
by the same stable descending-count sort. -/
def mergeSimilarGroups (groups : List Group) (threshold : ℚ := 4 / 5) : List Group :=
  sortByCountDesc (mergeScan threshold groups)

/-! ### Statistics (`getStats`, grouper.js)

JavaScript plain objects used as counters preserve insertion order for
string keys, except that keys which are canonical array indices are
enumerated first, in ascending numeric order (`OrdinaryOwnPropertyKeys`).
The counter object is embedded as an insertion-ordered association list and
`Object.entries` as the reordering below.  The numeric-counter model is
accurate for keys that are not inherited properties of `Object.prototype`;
for a key such as `toString` the JavaScript idiom `(o[k] || 0) + 1` finds
the inherited function and degenerates to string concatenation, which this
embedding does not model (the corresponding theorem assumes such keys are
absent). -/

/-- A string-keyed counter object, in insertion order. -/
abbrev JsCounter := List (Str × Nat)

/-- `o[k] = (o[k] || 0) + 1`. -/
def bumpKey : JsCounter → Str → JsCounter
  | [], k => [(k, 1)]
  | (k0, n) :: rest, k =>
    if k0 = k then (k0, n + 1) :: rest else (k0, n) :: bumpKey rest k

/-- Canonical-array-index test for a property key: a non-empty digit string
with no leading zero (except `"0"` itself) whose value is below `2^32 - 1`. -/
def isArrayIdx (s : Str) : Bool :=
  match s with
  | [] => false
  | ['0'] => true
  | c :: _ => c ≠ '0' && s.all isDigitC && digitsVal s < 4294967295

/-- Insertion sort of the array-index keys by numeric value, ascending. -/
def insertByVal (p : Str × Nat) : List (Str × Nat) → List (Str × Nat)
  | [] => [p]
  | q :: t =>
    if digitsVal p.1 ≤ digitsVal q.1 then p :: q :: t else q :: insertByVal p t

/-- `Object.entries` enumeration order: canonical array indices first in
ascending numeric order, then the remaining keys in insertion order. -/
def jsEntries (o : JsCounter) : List (Str × Nat) :=
  ((o.filter (fun p => isArrayIdx p.1)).foldr insertByVal []) ++
    o.filter (fun p => !isArrayIdx p.1)

/-- The `for (const [code, count] of Object.entries(codeCounts))` scan with
a strict running maximum: the first entry to exceed every earlier count
wins. -/
def topScan : List (Str × Nat) → Nat → Option (Str × Nat) → Option (Str × Nat)
  | [], _, best => best
  | (code, count) :: rest, maxCount, best =>
    if maxCount < count then topScan rest count (some (code, count))
    else topScan rest maxCount best

/-- The `codeCounts` object accumulated over all records with a truthy
`code`. -/
def codeCounts (allErrors : List ErrorRecord) : JsCounter :=
  allErrors.foldl
    (fun acc error =>
      match jsStr error.code with
      | some c => bumpKey acc c
      | none => acc)
    []

/-- The result record of `getStats`.  `filesAffected` is the size the
JavaScript code overwrites the `Set` with; `byType` and `bySeverity` are
the counter objects in insertion order. -/
structure Stats where
  totalErrors : Nat
  uniquePatterns : Nat
  filesAffected : Nat
  byType : JsCounter
  bySeverity : JsCounter
  topCode : Option (Str × Nat)
deriving DecidableEq, Repr

/-- The name `"unknown"`. -/
def unknownName : Str := ['u', 'n', 'k', 'n', 'o', 'w', 'n']

/-- The name `"error"`. -/
def errorName : Str := ['e', 'r', 'r', 'o', 'r']

/-- `getStats` (grouper.js). -/
def getStats (groups : List Group) (allErrors : List ErrorRecord) : Stats :=
  { totalErrors := allErrors.length
    uniquePatterns := groups.length
    filesAffected :=
      (allErrors.foldl
        (fun acc error =>
          match jsStr error.file with
          | some f => setAdd acc f
          | none => acc)
        []).length
    byType :=
      allErrors.foldl
        (fun acc error => bumpKey acc ((jsStr error.ty).getD unknownName)) []
    bySeverity :=
      allErrors.foldl
        (fun acc error => bumpKey acc ((jsStr error.severity).getD errorName)) []
    topCode := topScan (jsEntries (codeCounts allErrors)) 0 none }

/-! ### A backtracking regular-expression engine

The eight extraction patterns and the seven detector probes of parser.js are
transcribed into the abstract syntax below and run by a backtracking matcher
that returns every way a (sub)expression can match, in JavaScript priority
order: alternatives left to right, greedy quantifiers longest first, lazy
quantifiers shortest first, and a repetition step never matching the empty
string (ECMAScript terminates a quantifier once an iteration fails to
consume input).  All the embedded patterns operate with the `m` flag, so
`bol`/`eol` are line anchors; `.` is `cls (· ≠ LF)`. -/

inductive RE where
  | eps
  | cls (p : Char → Bool)
  | seq (a b : RE)
  | alt (a b : RE)
  | star (a : RE) (lazy : Bool)
  | optR (a : RE) (lazy : Bool)
  | group (idx : Nat) (a : RE)
  | bol
  | eol

/-- Capture list: `(group index, start, stop)`, most recent first. -/
abbrev Caps := List (Nat × Nat × Nat)

/-- Latest recorded span of a capture group. -/
def capGet (caps : Caps) (i : Nat) : Option (Nat × Nat) :=
  (caps.find? (fun t => t.1 = i)).map (fun t => t.2)

/-- One layer of the matcher: `rec` handles the self-call a quantifier
iteration makes (at a strictly larger position); everything else is
structural recursion over the expression.  The filter on quantifier steps
is the ECMAScript rule that an iteration must consume input. -/
def matStep (rec : RE → Nat → Caps → List (Nat × Caps)) (s : Str) :
    RE → Nat → Caps → List (Nat × Caps)
  | .eps, p, caps => [(p, caps)]
  | .cls f, p, caps =>
    match s.get? p with
    | some c => if f c then [(p + 1, caps)] else []
    | none => []
  | .bol, p, caps => if p = 0 || s.get? (p - 1) = some '\n' then [(p, caps)] else []
  | .eol, p, caps => if p = s.length || s.get? p = some '\n' then [(p, caps)] else []
  | .seq a b, p, caps =>
    (matStep rec s a p caps).flatMap (fun q => matStep rec s b q.1 q.2)
  | .alt a b, p, caps => matStep rec s a p caps ++ matStep rec s b p caps
  | .optR a lz, p, caps =>
    if lz then (p, caps) :: matStep rec s a p caps
    else matStep rec s a p caps ++ [(p, caps)]
  | .star a lz, p, caps =>
    let deeper :=
      ((matStep rec s a p caps).filter (fun q => p < q.1 && q.1 ≤ s.length)).flatMap
        (fun q => rec (.star a lz) q.1 q.2)
    if lz then (p, caps) :: deeper else deeper ++ [(p, caps)]
  | .group i a, p, caps =>
    (matStep rec s a p caps).map (fun q => (q.1, (i, p, q.1) :: q.2))

/-- The matcher with a bound on quantifier re-entries.  Every re-entry
happens at a strictly larger position of `s`, so a bound exceeding the
input length never runs out; the zero case is unreachable. -/
def matGo (s : Str) : Nat → RE → Nat → Caps → List (Nat × Caps)
  | 0, _, _, _ => []
  | fuel + 1, re, p, caps =>
    if s.length < p then [] else matStep (matGo s fuel) s re p caps

/-- All matches of `re` at position `p` of `s`, in priority order, as
`(end position, captures)`: alternatives left to right, greedy quantifiers
longest first, lazy quantifiers shortest first. -/
def mat (s : Str) (re : RE) (p : Nat) (caps : Caps) : List (Nat × Caps) :=
  matGo s (s.length + 2) re p caps

/-- Search loop on a step bound (the position advances by one per step). -/
def firstMatchGo (s : Str) (re : RE) : Nat → Nat → Option (Nat × Nat × Caps)
  | 0, _ => none
  | fuel + 1, i =>
    if s.length < i then none
    else
      match (mat s re i []).head? with
      | some q => some (i, q.1, q.2)
      | none => firstMatchGo s re fuel (i + 1)

/-- First match of `re` at or after position `i` (the search loop of a
non-sticky JavaScript regex): the triple is `(index, end, captures)`. -/
def firstMatchFrom (s : Str) (re : RE) (i : Nat) : Option (Nat × Nat × Caps) :=
  firstMatchGo s re (s.length + 2) i

/-- The match-collection loop on a step bound (`lastIndex` strictly
increases per collected match). -/
def execLoopGo (s : Str) (re : RE) : Nat → Nat → List (Nat × Nat × Caps)
  | 0, _ => []
  | fuel + 1, pos =>
    if s.length < pos then []
    else
      match firstMatchFrom s re pos with
      | none => []
      | some (i, e, caps) =>
        if pos ≤ i ∧ i < e then (i, e, caps) :: execLoopGo s re fuel e
        else [(i, e, caps)]

/-- The `while ((match = pattern.regex.exec(input)) !== null)` loop: collect
matches left to right, resuming each search at the previous match end
(`lastIndex`).  Every embedded pattern contains a mandatory literal, so its
matches are never empty; an empty match (on which the source loop would
spin forever) is returned once and the scan stopped, which keeps the
definition total on that unreachable branch. -/
def execLoop (s : Str) (re : RE) (pos : Nat) : List (Nat × Nat × Caps) :=
  execLoopGo s re (s.length + 2) pos

/-- The slice `s[a..b)`. -/
def slice (s : Str) (a b : Nat) : Str := (s.drop a).take (b - a)

/-- A JavaScript match object: the input, the span of the full match, and
the captures. -/
structure JsMatch where
  input : Str
  index : Nat
  stop : Nat
  caps : Caps

/-- `match[i]` for `1 ≤ i`: the captured substring, or `none` when the
group did not participate (`undefined`). -/
def JsMatch.grp (m : JsMatch) (i : Nat) : Option Str :=
  (capGet m.caps i).map (fun ab => slice m.input ab.1 ab.2)

/-- A pattern of the registry: its regex and its extraction rule.  The rule
returns `none` exactly when the extractor would throw (a method call on an
`undefined` capture), which the scan loop of `parseErrors` silently skips. -/
structure Pattern where
  re : RE
  extract : JsMatch → Option ErrorRecord

/-! Regex construction helpers. -/

/-- Single literal character. -/
def rchar (c : Char) : RE := .cls (fun x => x = c)

/-- Literal string. -/
def rstr (w : Str) : RE := w.foldr (fun c acc => .seq (rchar c) acc) .eps

/-- Literal string under the `i` flag; `w` is given lower-cased. -/
def rstrCI (w : Str) : RE :=
  w.foldr (fun c acc => .seq (.cls (fun x => jsToLowerC x = c)) acc) .eps

/-- Sequence of expressions. -/
def seqs (l : List RE) : RE := l.foldr .seq .eps

/-- Alternation, in priority order. -/
def altList : List RE → RE
  | [] => .eps
  | [r] => r
  | r :: rest => .alt r (altList rest)

/-- `.` (no `s` flag): any character but a line feed. -/
def notNl : RE := .cls (fun c => c ≠ '\n')

/-- `[\s\S]`: any character. -/
def anyC : RE := .cls (fun _ => true)

/-- `\s`. -/
def wsR : RE := .cls isJsWsC

/-- `\S`. -/
def nonWsR : RE := .cls (fun c => !isJsWsC c)

/-- `\d`. -/
def digitR : RE := .cls isDigitC

/-- `\w`. -/
def wordR : RE := .cls isWordC

/-- Greedy `+`. -/
def plusG (r : RE) : RE := .seq r (.star r false)

/-- Lazy `+?`. -/
def plusL (r : RE) : RE := .seq r (.star r true)

/-- Greedy `*`. -/
def starG (r : RE) : RE := .star r false

/-- Lazy `*?`. -/
def starL (r : RE) : RE := .star r true

/-- Greedy `?`. -/
def optG (r : RE) : RE := .optR r false

/-! ### The pattern registry (`PATTERNS`, parser.js) -/

/-- `^(.+?)[:(](\d+)[,:](\d+)\)?[: -]+error\s+(TS\d+):\s*(.+)$` (flags `gm`). -/
def tsRE : RE := seqs
  [.bol,
   .group 1 (plusL notNl),
   .cls (fun c => c = ':' || c = '('),
   .group 2 (plusG digitR),
   .cls (fun c => c = ',' || c = ':'),
   .group 3 (plusG digitR),
   optG (rchar ')'),
   plusG (.cls (fun c => c = ':' || c = ' ' || c = '-')),
   rstr ("error").data,
   plusG wsR,
   .group 4 (.seq (rstr ("TS").data) (plusG digitR)),
   rchar ':',
   starG wsR,
   .group 5 (plusG notNl),
   .eol]

/-- Extractor of the `typescript` pattern. -/
def tsExtract (m : JsMatch) : Option ErrorRecord :=
  match m.grp 5 with
  | none => none
  | some m5 => some
    { file := m.grp 1
      line := jsParseInt (m.grp 2)
      column := jsParseInt (m.grp 3)
      code := m.grp 4
      message := some (jsTrim m5)
      ty := some ("typescript").data }

/-- `^(?:(.+?):)?(\d+):(\d+)\s+(error|warning)\s+(.+?)\s+(\S+)$` (flags `gm`). -/
def eslintRE : RE := seqs
  [.bol,
   optG (.seq (.group 1 (plusL notNl)) (rchar ':')),
   .group 2 (plusG digitR),
   rchar ':',
   .group 3 (plusG digitR),
   plusG wsR,
   .group 4 (.alt (rstr ("error").data) (rstr ("warning").data)),
   plusG wsR,
   .group 5 (plusL notNl),
   plusG wsR,
   .group 6 (plusG nonWsR),
   .eol]

/-- Extractor of the `eslint` pattern (`match[1] || 'unknown'` for the
file). -/
def eslintExtract (m : JsMatch) : Option ErrorRecord :=
  match m.grp 5 with
  | none => none
  | some m5 => some
    { file := some ((jsStr (m.grp 1)).getD unknownName)
      line := jsParseInt (m.grp 2)
      column := jsParseInt (m.grp 3)
      severity := m.grp 4
      message := some (jsTrim m5)
      code := m.grp 6
      ty := some ("eslint").data }

/-- `^\s*(?:●|✕|✖|FAIL)\s+(.+?)(?:\s+›\s+(.+))?$` (flags `gm`). -/
def jestRE : RE := seqs
  [.bol,
   starG wsR,
   altList [rchar '●', rchar '✕', rchar '✖', rstr ("FAIL").data],
   plusG wsR,
   .group 1 (plusL notNl),
   optG (seqs [plusG wsR, rchar '›', plusG wsR, .group 2 (plusG notNl)]),
   .eol]

/-- `match[1].replace(/^FAIL\s+/, '')`. -/
def jestStripFail (s : Str) : Str :=
  match s with
  | 'F' :: 'A' :: 'I' :: 'L' :: r =>
    if r.takeWhile isJsWsC = [] then s else r.dropWhile isJsWsC
  | _ => s

/-- Extractor of the `jest` pattern.  (The registry entry also carries an
`assertionRegex` field, which `parseErrors` never reads.) -/
def jestExtract (m : JsMatch) : Option ErrorRecord :=
  match m.grp 1 with
  | none => none
  | some m1 => some
    { file := some (jestStripFail m1)
      message := some ((jsStr (m.grp 2)).getD m1)
      ty := some ("jest").data }

/-- `^(?:\s*File\s+"(.+?)",\s*line\s*(\d+)(?:,\s*in\s+(\S+))?[\s\S]*?)?^\s*(\w+Error|\w+Exception):\s*(.+)$`
(flags `gm`). -/
def pythonRE : RE := seqs
  [.bol,
   optG (seqs
     [starG wsR,
      rstr ("File").data,
      plusG wsR,
      rchar dqC,
      .group 1 (plusL notNl),
      rchar dqC,
      rchar ',',
      starG wsR,
      rstr ("line").data,
      starG wsR,
      .group 2 (plusG digitR),
      optG (seqs
        [rchar ',', starG wsR, rstr ("in").data, plusG wsR,
         .group 3 (plusG nonWsR)]),
      starL anyC]),
   .bol,
   starG wsR,
   .group 4 (.alt (.seq (plusG wordR) (rstr ("Error").data))
                  (.seq (plusG wordR) (rstr ("Exception").data))),
   rchar ':',
   starG wsR,
   .group 5 (plusG notNl),
   .eol]

/-- Extractor of the `python` pattern (`match[2] ? parseInt(match[2], 10)
: null`). -/
def pythonExtract (m : JsMatch) : Option ErrorRecord :=
  match m.grp 5 with
  | none => none
  | some m5 => some
    { file := some ((jsStr (m.grp 1)).getD unknownName)
      line := (jsStr (m.grp 2)).bind parseInt10
      function := m.grp 3
      code := m.grp 4
      message := some (jsTrim m5)
      ty := some ("python").data }

/-- `^(error|warning)\[(E\d+)\]:\s*(.+)\n\s*-->\s*(.+?):(\d+):(\d+)` (flags
`gm`). -/
def rustRE : RE := seqs
  [.bol,
   .group 1 (.alt (rstr ("error").data) (rstr ("warning").data)),
   rchar '[',
   .group 2 (.seq (rchar 'E') (plusG digitR)),
   rchar ']',
   rchar ':',
   starG wsR,
   .group 3 (plusG notNl),
   rchar '\n',
   starG wsR,
   rstr ("-->").data,
   starG wsR,
   .group 4 (plusL notNl),
   rchar ':',
   .group 5 (plusG digitR),
   rchar ':',
   .group 6 (plusG digitR)]

/-- Extractor of the `rust` pattern. -/
def rustExtract (m : JsMatch) : Option ErrorRecord :=
  match m.grp 3 with
  | none => none
  | some m3 => some
    { severity := m.grp 1
      code := m.grp 2
      message := some (jsTrim m3)
      file := m.grp 4
      line := jsParseInt (m.grp 5)
      column := jsParseInt (m.grp 6)
      ty := some ("rust").data }

/-- `^(.+?\.go):(\d+):(\d+):\s*(.+)$` (flags `gm`). -/
def goRE : RE := seqs
  [.bol,
   .group 1 (seqs [plusL notNl, rchar '.', rstr ("go").data]),
   rchar ':',
   .group 2 (plusG digitR),
   rchar ':',
   .group 3 (plusG digitR),
   rchar ':',
   starG wsR,
   .group 4 (plusG notNl),
   .eol]

/-- Extractor of the `go` pattern. -/
def goExtract (m : JsMatch) : Option ErrorRecord :=
  match m.grp 4 with
  | none => none
  | some m4 => some
    { file := m.grp 1
      line := jsParseInt (m.grp 2)
      column := jsParseInt (m.grp 3)
      message := some (jsTrim m4)
      ty := some ("go").data }

/-- `^(.+?\.[ch](?:pp|xx)?):(\d+):(\d+):\s*(error|warning):\s*(.+)$` (flags
`gm`). -/
def gccRE : RE := seqs
  [.bol,
   .group 1 (seqs
     [plusL notNl, rchar '.', .cls (fun c => c = 'c' || c = 'h'),
      optG (.alt (rstr ("pp").data) (rstr ("xx").data))]),
   rchar ':',
   .group 2 (plusG digitR),
   rchar ':',
   .group 3 (plusG digitR),
   rchar ':',
   starG wsR,
   .group 4 (.alt (rstr ("error").data) (rstr ("warning").data)),
   rchar ':',
   starG wsR,
   .group 5 (plusG notNl),
   .eol]

/-- Extractor of the `gcc` pattern. -/
def gccExtract (m : JsMatch) : Option ErrorRecord :=
  match m.grp 5 with
  | none => none
  | some m5 => some
    { file := m.grp 1
      line := jsParseInt (m.grp 2)
      column := jsParseInt (m.grp 3)
      severity := m.grp 4
      message := some (jsTrim m5)
      ty := some ("gcc").data }

/-- `^(?:\[?(ERROR|Error|error|ERR|FATAL|Fatal|fatal)\]?:?\s*)(.+)$` (flags
`gm`). -/
def genericRE : RE := seqs
  [.bol,
   optG (rchar '['),
   .group 1 (altList
     [rstr ("ERROR").data, rstr ("Error").data, rstr ("error").data,
      rstr ("ERR").data, rstr ("FATAL").data, rstr ("Fatal").data,
      rstr ("fatal").data]),
   optG (rchar ']'),
   optG (rchar ':'),
   starG wsR,
   .group 2 (plusG notNl),
   .eol]

/-- Extractor of the `generic` pattern. -/
def genericExtract (m : JsMatch) : Option ErrorRecord :=
  match m.grp 1, m.grp 2 with
  | some g1, some g2 => some
    { severity := some (jsToLower g1)
      message := some (jsTrim g2)
      ty := some ("generic").data }
  | _, _ => none

def PATTERNS_typescript : Pattern := { re := tsRE, extract := tsExtract }

def PATTERNS_eslint : Pattern := { re := eslintRE, extract := eslintExtract }

def PATTERNS_jest : Pattern := { re := jestRE, extract := jestExtract }

def PATTERNS_python : Pattern := { re := pythonRE, extract := pythonExtract }

def PATTERNS_rust : Pattern := { re := rustRE, extract := rustExtract }

def PATTERNS_go : Pattern := { re := goRE, extract := goExtract }

def PATTERNS_gcc : Pattern := { re := gccRE, extract := gccExtract }

def PATTERNS_generic : Pattern := { re := genericRE, extract := genericExtract }

/-- The fixed category set. -/
def categoryNames : List Str :=
  [("typescript").data, ("eslint").data, ("jest").data, ("python").data,
   ("rust").data, ("go").data, ("gcc").data, ("generic").data]

/-- The inherited own-property names of `Object.prototype` in Node: the
keys for which `PATTERNS[type]` finds a truthy non-pattern value through
the prototype chain. -/
def objectProtoKeys : List Str :=
  [("constructor").data, ("hasOwnProperty").data, ("isPrototypeOf").data,
   ("propertyIsEnumerable").data, ("toLocaleString").data,
   ("toString").data, ("valueOf").data, ("__defineGetter__").data,
   ("__defineSetter__").data, ("__lookupGetter__").data,
   ("__lookupSetter__").data, ("__proto__").data]

/-- Result of the property access `PATTERNS[type]`: one of the eight
registry entries, a truthy non-pattern value inherited from
`Object.prototype` (on which `pattern.regex.lastIndex = 0` then throws a
`TypeError`), or `undefined`. -/
inductive PatLookup where
  | found (p : Pattern)
  | junk
  | missing

/-- `PATTERNS[type]` including the prototype chain. -/
def patLookup (ty : Str) : PatLookup :=
  if ty = ("typescript").data then .found PATTERNS_typescript
  else if ty = ("eslint").data then .found PATTERNS_eslint
  else if ty = ("jest").data then .found PATTERNS_jest
  else if ty = ("python").data then .found PATTERNS_python
  else if ty = ("rust").data then .found PATTERNS_rust
  else if ty = ("go").data then .found PATTERNS_go
  else if ty = ("gcc").data then .found PATTERNS_gcc
  else if ty = ("generic").data then .found PATTERNS_generic
  else if ty ∈ objectProtoKeys then .junk
  else .missing

/-! ### The category detector (`detectType`, parser.js) -/

/-- `regex.test(input)` for a non-sticky regex. -/
def rtest (re : RE) (input : Str) : Bool := (firstMatchFrom input re 0).isSome

/-- `/error\s+TS\d+:/i`. -/
def tsProbe : RE := seqs
  [rstrCI ("error").data, plusG wsR, rstrCI ("ts").data, plusG digitR, rchar ':']

/-- `/\d+:\d+\s+(error|warning)\s+.+\s+\S+$/m`. -/
def eslintProbe : RE := seqs
  [plusG digitR, rchar ':', plusG digitR, plusG wsR,
   .group 1 (.alt (rstr ("error").data) (rstr ("warning").data)),
   plusG wsR, plusG notNl, plusG wsR, plusG nonWsR, .eol]

/-- `/^\s*(?:●|✕|✖|FAIL\s+)/m`. -/
def jestProbeA : RE := seqs
  [.bol, starG wsR,
   altList [rchar '●', rchar '✕', rchar '✖',
     .seq (rstr ("FAIL").data) (plusG wsR)]]

/-- `/Test Suites?:.*failed/i`. -/
def jestProbeB : RE := seqs
  [rstrCI ("test suite").data, optG (rstrCI ("s").data), rchar ':',
   starG notNl, rstrCI ("failed").data]

/-- `/File\s+".+",\s+line\s+\d+/i`. -/
def pythonProbeA : RE := seqs
  [rstrCI ("file").data, plusG wsR, rchar dqC, plusG notNl, rchar dqC,
   rchar ',', plusG wsR, rstrCI ("line").data, plusG wsR, plusG digitR]

/-- `/\w+Error:|Traceback/i`. -/
def pythonProbeB : RE :=
  .alt (seqs [plusG wordR, rstrCI ("error").data, rchar ':'])
    (rstrCI ("traceback").data)

/-- `/^(error|warning)\[E\d+\]:/m`. -/
def rustProbe : RE := seqs
  [.bol, .group 1 (.alt (rstr ("error").data) (rstr ("warning").data)),
   rchar '[', rchar 'E', plusG digitR, rchar ']', rchar ':']

/-- `/\.go:\d+:\d+:/`. -/
def goProbe : RE := seqs
  [rchar '.', rstr ("go").data, rchar ':', plusG digitR, rchar ':',
   plusG digitR, rchar ':']

/-- `/\.[ch](pp|xx)?:\d+:\d+:\s*(error|warning):/`. -/
def gccProbe : RE := seqs
  [rchar '.', .cls (fun c => c = 'c' || c = 'h'),
   optG (.group 1 (.alt (rstr ("pp").data) (rstr ("xx").data))),
   rchar ':', plusG digitR, rchar ':', plusG digitR, rchar ':',
   starG wsR, .group 2 (.alt (rstr ("error").data) (rstr ("warning").data)),
   rchar ':']

/-- `detectType` (parser.js): the ordered probe chain, defaulting to
`generic`. -/
def detectType (input : Str) : Str :=
  if rtest tsProbe input then ("typescript").data
  else if rtest eslintProbe input then ("eslint").data
  else if rtest jestProbeA input || rtest jestProbeB input then ("jest").data
  else if rtest pythonProbeA input || rtest pythonProbeB input then ("python").data
  else if rtest rustProbe input then ("rust").data
  else if rtest goProbe input then ("go").data
  else if rtest gccProbe input then ("gcc").data
  else ("generic").data

/-! ### The extraction loop (`parseErrors`, parser.js) -/

/-- The scan of one pattern over the whole input: one record per match,
with `raw` and `position` filled from the match; extraction failures are
skipped (`try { ... } catch { }`). -/
def extractAll (input : Str) (pat : Pattern) : List ErrorRecord :=
  (execLoop input pat.re 0).filterMap
    (fun t =>
      (pat.extract { input := input, index := t.1, stop := t.2.1, caps := t.2.2 }).map
        (fun r => { r with raw := slice input t.1 t.2.1, position := t.1 }))

/-- The category actually scanned: `forcedType === 'auto' ?
detectType(input) : forcedType`. -/
def resolvedType (input : Str) (forcedType : Str) : Str :=
  if forcedType = ("auto").data then detectType input else forcedType

/-- The body of `parseErrors` on a recursion bound.  The self-call always
passes the literal category `generic`, for which the fallback condition is
false, so the recursion depth is at most one and a bound of 2 never runs
out. -/
def parseErrorsGo : Nat → Str → Str → Except Unit (List ErrorRecord)
  | 0, _, _ => .error ()
  | fuel + 1, input, forcedType =>
    match patLookup (resolvedType input forcedType) with
    | .junk => .error ()
    | .found pat =>
      let errors := extractAll input pat
      if errors = [] ∧ resolvedType input forcedType ≠ ("generic").data then
        parseErrorsGo fuel input (("generic").data)
      else .ok errors
    | .missing =>
      let errors := extractAll input PATTERNS_generic
      if errors = [] ∧ resolvedType input forcedType ≠ ("generic").data then
        parseErrorsGo fuel input (("generic").data)
      else .ok errors

/-- `parseErrors` (parser.js).  `PATTERNS[type] || PATTERNS.generic` falls
back to the generic pattern for an `undefined` lookup, but an inherited
`Object.prototype` value is truthy and the subsequent
`pattern.regex.lastIndex = 0` throws, modelled by `Except.error ()`.  When
the scan finds nothing and the resolved category is not `generic`, the
function calls itself once with `'generic'`. -/
def parseErrors (input : Str) (forcedType : Str := ("auto").data) :
    Except Unit (List ErrorRecord) :=
  parseErrorsGo 2 input forcedType

/-! ### Auxiliary definitions used by the statements below -/

/-- First-seen order of the elements of `l` that are not in `seen`: the key
order of an insertion-ordered map fed with `l`. -/
def firstSeenAux (seen : List Str) : List Str -> List Str
  | [] => []
  | s :: rest =>
    if s ∈ seen then firstSeenAux seen rest
    else s :: firstSeenAux (s :: seen) rest

/-- The pattern a category is scanned with, when the lookup does not throw:
`PATTERNS[type] || PATTERNS.generic`. -/
def patternUsedFor (ty : Str) : Option Pattern :=
  match patLookup ty with
  | .found p => some p
  | .missing => some PATTERNS_generic
  | .junk => none

/-- The similarity contract, transcribed from the specification: equal
strings give 1; one empty string gives 0; a length difference of more than
half the longer length gives 0; otherwise the Jaccard index of the two
case-folded token sets, with 0 for an empty union. -/
def similaritySpec (a b : Str) : ℚ :=
  if a = b then 1
  else if a = [] ∨ b = [] then 0
  else if ((max a.length b.length : ℚ) * (1 / 2) <
      ((a.length : ℤ) - (b.length : ℤ)).natAbs) then 0
  else
    let A := (wordRuns (jsToLower a)).toFinset
    let B := (wordRuns (jsToLower b)).toFinset
    if (A ∪ B).card = 0 then 0 else ((A ∩ B).card : ℚ) / ((A ∪ B).card : ℚ)

/-- Largest count appearing in a counter. -/
def maxCnt (o : JsCounter) : Nat := (o.map Prod.snd).foldr max 0

/-- The truthy codes of a record list, in order. -/
def truthyCodes (allErrors : List ErrorRecord) : List Str :=
  allErrors.filterMap (fun e => jsStr e.code)

/-- The code-frequency table the specification describes: the distinct
truthy codes in first-seen order, each paired with its number of
occurrences. -/
def codeFreqTable (allErrors : List ErrorRecord) : JsCounter :=
  (firstSeenAux [] (truthyCodes allErrors)).map
    (fun k => (k, (truthyCodes allErrors).count k))

/-- The message of the idempotence failing input: a single-quoted hex
literal of 51 characters, too long for the quote rule but reduced to
`'<hex>'` by the later hex rule. -/
def hexCexMsg : Str := (sqC :: '0' :: 'x' :: List.replicate 49 '0') ++ [sqC]

/-! ## Lemmas -/

theorem mem_insertByCount {g x : Group} {l : List Group} :
    x ∈ insertByCount g l ↔ x = g ∨ x ∈ l := by
  induction l with
  | nil => simp [insertByCount]
  | cons h t ih =>
    simp only [insertByCount]
    split
    · simp
    · simp only [List.mem_cons, ih]
      tauto

theorem sumCounts_cons (g : Group) (l : List Group) :
    sumCounts (g :: l) = g.count + sumCounts l := by
  simp [sumCounts]

theorem sumCounts_insertByCount (g : Group) (l : List Group) :
    sumCounts (insertByCount g l) = g.count + sumCounts l := by
  induction l with
  | nil => simp [insertByCount, sumCounts]
  | cons h t ih =>
    simp only [insertByCount]
    split
    · rfl
    · rw [sumCounts_cons, ih, sumCounts_cons]
      omega

theorem sumCounts_sortByCountDesc (l : List Group) :
    sumCounts (sortByCountDesc l) = sumCounts l := by
  induction l with
  | nil => rfl
  | cons h t ih =>
    show sumCounts (insertByCount h (sortByCountDesc t)) = _
    rw [sumCounts_insertByCount, ih, sumCounts_cons]

theorem length_insertByCount (g : Group) (l : List Group) :
    (insertByCount g l).length = l.length + 1 := by
  induction l with
  | nil => rfl
  | cons h t ih =>
    simp only [insertByCount]
    split
    · simp
    · simp [ih]

theorem length_sortByCountDesc (l : List Group) :
    (sortByCountDesc l).length = l.length := by
  induction l with
  | nil => rfl
  | cons h t ih =>
    show (insertByCount h (sortByCountDesc t)).length = _
    rw [length_insertByCount, ih, List.length_cons]

theorem pairwise_insertByCount {g : Group} {l : List Group}
    (hl : l.Pairwise (fun a b => b.count ≤ a.count)) :
    (insertByCount g l).Pairwise (fun a b => b.count ≤ a.count) := by
  induction l with
  | nil => simp [insertByCount]
  | cons h t ih =>
    rcases List.pairwise_cons.mp hl with ⟨hh, ht⟩
    simp only [insertByCount]
    split
    · rename_i hcnt
      refine List.pairwise_cons.mpr ⟨?_, hl⟩
      intro x hx
      rcases List.mem_cons.mp hx with rfl | hx2
      · exact hcnt
      · exact le_trans (hh x hx2) hcnt
    · rename_i hcnt
      refine List.pairwise_cons.mpr ⟨?_, ih ht⟩
      intro x hx
      rcases mem_insertByCount.mp hx with rfl | hx2
      · omega
      · exact hh x hx2

theorem pairwise_sortByCountDesc (l : List Group) :
    (sortByCountDesc l).Pairwise (fun a b => b.count ≤ a.count) := by
  induction l with
  | nil => simp [sortByCountDesc]
  | cons h t ih => exact pairwise_insertByCount ih

theorem filter_insertByCount (g : Group) (l : List Group) (c : Nat) :
    (insertByCount g l).filter (fun x => x.count == c) =
      (g :: l).filter (fun x => x.count == c) := by
  induction l with
  | nil => rfl
  | cons h t ih =>
    simp only [insertByCount]
    split
    · rfl
    · rename_i hcnt
      by_cases hh : h.count = c <;> by_cases hg : g.count = c
      · omega
      · simp [List.filter_cons, hh, hg, ih]
      · simp [List.filter_cons, hh, hg, ih]
      · simp [List.filter_cons, hh, hg, ih]

theorem filter_sortByCountDesc (l : List Group) (c : Nat) :
    (sortByCountDesc l).filter (fun x => x.count == c) =
      l.filter (fun x => x.count == c) := by
  induction l with
  | nil => rfl
  | cons h t ih =>
    show (insertByCount h (sortByCountDesc t)).filter _ = _
    rw [filter_insertByCount]
    by_cases hh : h.count = c <;> simp [List.filter_cons, hh, ih]

theorem sumCounts_addRecord (gs : List Group) (e : ErrorRecord) :
    sumCounts (addRecord gs e) = sumCounts gs + 1 := by
  induction gs with
  | nil => simp [addRecord, newGroup, sumCounts]
  | cons g t ih =>
    simp only [addRecord]
    split
    · rw [sumCounts_cons, sumCounts_cons]
      simp [bumpGroup]
      omega
    · rw [sumCounts_cons, ih, sumCounts_cons]
      omega

theorem sumCounts_foldl_addRecord (l : List ErrorRecord) :
    ∀ acc, sumCounts (List.foldl addRecord acc l) = sumCounts acc + l.length := by
  induction l with
  | nil => intro acc; simp
  | cons e t ih =>
    intro acc
    rw [List.foldl_cons, ih, sumCounts_addRecord]
    simp
    omega

theorem addRecord_map_signature (gs : List Group) (e : ErrorRecord) :
    (addRecord gs e).map Group.signature =
      if getErrorSignature e ∈ gs.map Group.signature then gs.map Group.signature
      else gs.map Group.signature ++ [getErrorSignature e] := by
  induction gs with
  | nil => simp [addRecord, newGroup]
  | cons g t ih =>
    simp only [addRecord]
    split
    · rename_i hsig
      simp [bumpGroup, hsig]
    · rename_i hsig
      have hne : getErrorSignature e ≠ g.signature := fun h => hsig h.symm
      by_cases hmem : getErrorSignature e ∈ t.map Group.signature <;>
        simp [List.map_cons, List.mem_cons, hne, hmem, ih]

theorem firstSeenAux_congr (l : List Str) :
    ∀ s1 s2, (∀ x, x ∈ s1 ↔ x ∈ s2) → firstSeenAux s1 l = firstSeenAux s2 l := by
  induction l with
  | nil => intro s1 s2 _; rfl
  | cons s rest ih =>
    intro s1 s2 hs
    simp only [firstSeenAux]
    by_cases hmem : s ∈ s1
    · simp [hmem, (hs s).mp hmem, ih s1 s2 hs]
    · have hmem2 : s ∉ s2 := fun h => hmem ((hs s).mpr h)
      rw [if_neg hmem, if_neg hmem2,
        ih (s :: s1) (s :: s2) (by intro x; simp [hs x])]

theorem foldl_addRecord_map_signature (l : List ErrorRecord) :
    ∀ acc, (List.foldl addRecord acc l).map Group.signature =
      acc.map Group.signature ++
        firstSeenAux (acc.map Group.signature) (l.map getErrorSignature) := by
  induction l with
  | nil => intro acc; simp [firstSeenAux]
  | cons e t ih =>
    intro acc
    rw [List.foldl_cons, ih, addRecord_map_signature, List.map_cons]
    by_cases hmem : getErrorSignature e ∈ acc.map Group.signature
    · simp only [hmem, if_pos, firstSeenAux, if_pos hmem]
    · simp only [hmem, if_neg, not_false_iff, firstSeenAux, if_neg hmem]
      rw [firstSeenAux_congr _ (acc.map Group.signature ++ [getErrorSignature e])
        (getErrorSignature e :: acc.map Group.signature)
        (by
          intro x
          simp only [List.mem_append, List.mem_singleton, List.mem_cons]
          tauto)]
      simp

/-! ## Claims -/

/-- C1.  The claim states that signature normalization is idempotent.  The
code violates it: for a record whose message is a single-quoted 51-character
hex literal, the quote rule skips the over-long span, the hex rule then
shrinks it to `'<hex>'`, and re-normalizing that signature lets the quote
rule rewrite it to `'<name>'`.  This theorem evaluates both normalizations
at that failing input. -/
theorem getErrorSignature_not_idempotent :
    getErrorSignature
        { message := some (getErrorSignature { message := some hexCexMsg }) } ≠
      getErrorSignature { message := some hexCexMsg } := by decide

/-- C2.  When the `top` option is unlimited (absent or `0`), the counts of
the groups returned by `groupErrors` sum to the number of input records. -/
theorem groupErrors_count_conservation (errors : List ErrorRecord)
    (t : Option Int) (ht : t = none ∨ t = some 0) :
    sumCounts (groupErrors errors { top := t }) = errors.length := by
  have hbase : sumCounts (sortByCountDesc (buildGroups errors)) = errors.length := by
    rw [sumCounts_sortByCountDesc, buildGroups, sumCounts_foldl_addRecord]
    simp [sumCounts]
  rcases ht with rfl | rfl
  · exact hbase
  · simpa [groupErrors] using hbase

/-- Witness for C2 at a concrete two-record input. -/
theorem groupErrors_count_conservation_witness :
    ((none : Option Int) = none ∨ (none : Option Int) = some 0) ∧
      sumCounts (groupErrors
        [{ message := some ['a'] }, { message := some ['b'] }] { top := none }) = 2 :=
  ⟨Or.inl rfl,
    groupErrors_count_conservation
      [{ message := some ['a'] }, { message := some ['b'] }] none (Or.inl rfl)⟩

/-- C6.  With no truncation, `groupErrors` returns the groups sorted by
count, descending, and the sort is stable: for every count value, the
groups carrying it appear exactly in the insertion order of the signature
map (`buildGroups`). -/
theorem groupErrors_sorted_stable (errors : List ErrorRecord) :
    (groupErrors errors {}).Pairwise (fun a b => b.count ≤ a.count) ∧
      ∀ c, (groupErrors errors {}).filter (fun g => g.count == c) =
        (buildGroups errors).filter (fun g => g.count == c) := by
  constructor
  · exact pairwise_sortByCountDesc (buildGroups errors)
  · intro c
    exact filter_sortByCountDesc (buildGroups errors) c

/-- Counterexample for C7: eleven records with pairwise distinct signatures
yield eleven groups from `groupErrors` with no `top` supplied — not at most
ten. -/
theorem groupErrors_default_not_ten :
    10 < (groupErrors
      [{ message := some ['a'] }, { message := some ['b'] },
       { message := some ['c'] }, { message := some ['d'] },
       { message := some ['e'] }, { message := some ['f'] },
       { message := some ['g'] }, { message := some ['h'] },
       { message := some ['i'] }, { message := some ['j'] },
       { message := some ['k'] }] {}).length := by decide

/-- C7 (amended).  With no `top` option supplied, `groupErrors` applies no
truncation: it returns one group per distinct signature, in particular as
many groups as there are first-seen signatures; the default of 10 is
supplied by the CLI layer, not by the grouping function. -/
theorem groupErrors_default_unlimited (errors : List ErrorRecord) :
    (groupErrors errors {}).length =
      (firstSeenAux [] (errors.map getErrorSignature)).length := by
  show (sortByCountDesc (buildGroups errors)).length = _
  rw [length_sortByCountDesc]
  have h := foldl_addRecord_map_signature errors []
  simp only [List.map_nil, List.nil_append] at h
  calc (buildGroups errors).length
      = ((buildGroups errors).map Group.signature).length := by simp
    _ = _ := by rw [buildGroups, h]

theorem sumCounts_filter_partition (p : Group → Bool) (l : List Group) :
    sumCounts (l.filter p) + sumCounts (l.filter (fun x => !p x)) = sumCounts l := by
  induction l with
  | nil => rfl
  | cons g rest ih =>
    rcases hp : p g <;> simp [List.filter_cons, hp, sumCounts_cons] <;> omega

theorem sumCounts_mergeScan (t : ℚ) :
    ∀ (n : Nat) (l : List Group), l.length ≤ n →
      sumCounts (mergeScan t l) = sumCounts l := by
  intro n
  induction n with
  | zero =>
    intro l hl
    have : l = [] := List.length_eq_zero.mp (Nat.le_zero.mp hl)
    subst this
    simp [mergeScan]
  | succ n ih =>
    intro l hl
    match l with
    | [] => simp [mergeScan]
    | g :: rest =>
      have hk : (rest.filter
          (fun h => !decide (t ≤ similarity g.signature h.signature))).length ≤ n := by
        have := List.length_filter_le
          (fun h => !decide (t ≤ similarity g.signature h.signature)) rest
        simp only [List.length_cons] at hl
        omega
      have hkept := ih _ hk
      have hpart := sumCounts_filter_partition
        (fun h => decide (t ≤ similarity g.signature h.signature)) rest
      rw [mergeScan, sumCounts_cons, sumCounts_cons]
      simp only [decide_not]
      rw [hkept]
      omega

/-- C3.  Fuzzy merging conserves the total count: for every group list and
every threshold, the counts of `mergeSimilarGroups groups t` sum to the
counts of `groups`. -/
theorem mergeSimilarGroups_count_conservation (groups : List Group) (t : ℚ) :
    sumCounts (mergeSimilarGroups groups t) = sumCounts groups := by
  rw [mergeSimilarGroups, sumCounts_sortByCountDesc]
  exact sumCounts_mergeScan t groups.length groups le_rfl

theorem mem_dedupFirst :
    ∀ (n : Nat) (l : List Str), l.length ≤ n → ∀ x, (x ∈ dedupFirst l ↔ x ∈ l) := by
  intro n
  induction n with
  | zero =>
    intro l hl x
    have : l = [] := List.length_eq_zero.mp (Nat.le_zero.mp hl)
    subst this
    simp [dedupFirst]
  | succ n ih =>
    intro l hl x
    match l with
    | [] => simp [dedupFirst]
    | a :: rest =>
      have hr : (rest.filter (fun y => decide (y ≠ a))).length ≤ n := by
        have := List.length_filter_le (fun y => decide (y ≠ a)) rest
        simp only [List.length_cons] at hl
        omega
      rw [dedupFirst]
      simp only [List.mem_cons, ih _ hr x, List.mem_filter, decide_eq_true_eq]
      by_cases hxa : x = a <;> simp [hxa]

theorem dedupFirst_nodup :
    ∀ (n : Nat) (l : List Str), l.length ≤ n → (dedupFirst l).Nodup := by
  intro n
  induction n with
  | zero =>
    intro l hl
    have : l = [] := List.length_eq_zero.mp (Nat.le_zero.mp hl)
    subst this
    simp [dedupFirst]
  | succ n ih =>
    intro l hl
    match l with
    | [] => simp [dedupFirst]
    | a :: rest =>
      have hr : (rest.filter (fun y => decide (y ≠ a))).length ≤ n := by
        have := List.length_filter_le (fun y => decide (y ≠ a)) rest
        simp only [List.length_cons] at hl
        omega
      rw [dedupFirst]
      refine List.nodup_cons.mpr ⟨?_, ih _ hr⟩
      intro hmem
      have := (mem_dedupFirst _ _ hr a).mp hmem
      simp at this

theorem toFinset_dedupFirst (l : List Str) :
    (dedupFirst l).toFinset = l.toFinset := by
  ext x
  simp [List.mem_toFinset, mem_dedupFirst l.length l le_rfl x]

theorem length_tokenSet (s : Str) :
    (tokenSet s).length = (wordRuns (jsToLower s)).toFinset.card := by
  have hn : (tokenSet s).Nodup := dedupFirst_nodup _ _ le_rfl
  rw [← toFinset_dedupFirst (wordRuns (jsToLower s))]
  show (tokenSet s).length = (tokenSet s).toFinset.card
  rw [List.card_toFinset, List.dedup_eq_self.mpr hn]

theorem countP_tokenSet_inter (a b : Str) :
    (tokenSet a).countP (fun x => decide (x ∈ tokenSet b)) =
      ((wordRuns (jsToLower a)).toFinset ∩ (wordRuns (jsToLower b)).toFinset).card := by
  have hn : (tokenSet a).Nodup := dedupFirst_nodup _ _ le_rfl
  have hfn : ((tokenSet a).filter (fun x => decide (x ∈ tokenSet b))).Nodup :=
    hn.filter _
  have hlen : ∀ (l : List Str), l.Nodup → l.length = l.toFinset.card := by
    intro l hl
    rw [List.card_toFinset, List.dedup_eq_self.mpr hl]
  rw [List.countP_eq_length_filter, hlen _ hfn, List.toFinset_filter]
  have htok : (tokenSet a).toFinset = (wordRuns (jsToLower a)).toFinset := by
    simp only [tokenSet]
    exact toFinset_dedupFirst _
  rw [htok]
  have hpred : Finset.filter (fun x => decide (x ∈ tokenSet b) = true)
      (wordRuns (jsToLower a)).toFinset =
      Finset.filter (fun x => x ∈ (wordRuns (jsToLower b)).toFinset)
      (wordRuns (jsToLower a)).toFinset := by
    apply Finset.filter_congr
    intro x _
    simp only [decide_eq_true_eq, List.mem_toFinset, tokenSet]
    exact mem_dedupFirst _ _ le_rfl x
  rw [hpred, Finset.filter_mem_eq_inter]

/-- C4.  `similarity` realizes the specified contract: it agrees with the
specification-side `similaritySpec` (equality / emptiness / length
pre-filter cases, then the Jaccard index of the case-folded token sets),
and its value always lies in `[0, 1]`. -/
theorem similarity_spec_and_bounds (a b : Str) :
    similarity a b = similaritySpec a b ∧
      0 ≤ similarity a b ∧ similarity a b ≤ 1 := by
  have hA := length_tokenSet a
  have hB := length_tokenSet b
  have hI := countP_tokenSet_inter a b
  set A := (wordRuns (jsToLower a)).toFinset with hAdef
  set B := (wordRuns (jsToLower b)).toFinset with hBdef
  have hcard : (A ∩ B).card + (A ∪ B).card = A.card + B.card :=
    Finset.card_inter_add_card_union A B
  have hinter_le : (A ∩ B).card ≤ (A ∪ B).card :=
    Finset.card_le_card (Finset.inter_subset_union)
  have hu : A.card + B.card - (A ∩ B).card = (A ∪ B).card := by omega
  have heq : similarity a b = similaritySpec a b := by
    simp only [similarity, similaritySpec, hI, hA, hB, ← hAdef, ← hBdef]
    rw [hu]
  refine ⟨heq, ?_, ?_⟩
  · rw [heq]
    simp only [similaritySpec, ← hAdef, ← hBdef]
    split_ifs <;> first | norm_num | positivity
  · rw [heq]
    simp only [similaritySpec, ← hAdef, ← hBdef]
    split_ifs with e1 e2 e3 e4
    · norm_num
    · norm_num
    · norm_num
    · norm_num
    · have hpos : (0 : ℚ) < ((A ∪ B).card : ℚ) := by
        exact_mod_cast Nat.pos_of_ne_zero e4
      rw [div_le_one hpos]
      exact_mod_cast hinter_le

theorem mem_firstSeenAux_not_seen :
    ∀ (l seen : List Str) (x : Str), x ∈ firstSeenAux seen l → x ∉ seen := by
  intro l
  induction l with
  | nil => intro seen x hx; simp [firstSeenAux] at hx
  | cons s rest ih =>
    intro seen x hx
    simp only [firstSeenAux] at hx
    by_cases hs : s ∈ seen
    · rw [if_pos hs] at hx
      exact ih seen x hx
    · rw [if_neg hs] at hx
      rcases List.mem_cons.mp hx with rfl | hx2
      · exact hs
      · intro hxs
        exact ih (s :: seen) x hx2 (List.mem_cons_of_mem s hxs)

theorem beq_false_of_ne {α : Type _} [BEq α] [LawfulBEq α] {x y : α}
    (h : x ≠ y) : (x == y) = false := by
  rw [beq_eq_false_iff_ne]
  exact h

theorem bumpKey_of_not_mem :
    ∀ (acc : JsCounter) (k : Str), k ∉ acc.map Prod.fst →
      bumpKey acc k = acc ++ [(k, 1)] := by
  intro acc
  induction acc with
  | nil => intro k _; rfl
  | cons p rest ih =>
    intro k hk
    obtain ⟨k0, n⟩ := p
    simp only [List.map_cons, List.mem_cons] at hk
    push_neg at hk
    simp only [bumpKey]
    rw [if_neg (fun h => hk.1 h.symm), ih k hk.2]
    simp

theorem bumpKey_of_mem :
    ∀ (acc : JsCounter) (k : Str), (acc.map Prod.fst).Nodup →
      k ∈ acc.map Prod.fst →
      bumpKey acc k = acc.map (fun p => (p.1, if p.1 = k then p.2 + 1 else p.2)) := by
  intro acc
  induction acc with
  | nil => intro k _ hk; simp at hk
  | cons p rest ih =>
    intro k hnd hk
    obtain ⟨k0, n⟩ := p
    simp only [List.map_cons, List.nodup_cons] at hnd
    simp only [bumpKey, List.map_cons]
    by_cases h0 : k0 = k
    · rw [if_pos h0]
      subst h0
      have : rest.map (fun p => (p.1, if p.1 = k0 then p.2 + 1 else p.2)) = rest := by
        apply List.map_congr_left ?_ |>.trans (List.map_id rest)
        intro q hq
        have hq1 : q.1 ≠ k0 := by
          intro he
          exact hnd.1 (he ▸ List.mem_map_of_mem Prod.fst hq)
        simp [hq1]
      rw [this]
      simp
    · rw [if_neg h0]
      have hk2 : k ∈ rest.map Prod.fst := by
        rcases List.mem_cons.mp hk with h | h
        · exact absurd h.symm h0
        · exact h
      rw [ih k hnd.2 hk2]
      simp [h0]

theorem bumpKey_keys (acc : JsCounter) (k : Str) :
    (bumpKey acc k).map Prod.fst =
      if k ∈ acc.map Prod.fst then acc.map Prod.fst
      else acc.map Prod.fst ++ [k] := by
  induction acc with
  | nil => simp [bumpKey]
  | cons p rest ih =>
    obtain ⟨k0, n⟩ := p
    simp only [bumpKey, List.map_cons]
    by_cases h0 : k0 = k
    · subst h0
      simp
    · rw [if_neg h0, List.map_cons, ih]
      have h0x : k ≠ k0 := fun he => h0 he.symm
      by_cases hmem : k ∈ rest.map Prod.fst <;>
        simp [List.mem_cons, h0x, hmem]

theorem foldl_bumpKey_char (l : List Str) :
    ∀ acc : JsCounter, (acc.map Prod.fst).Nodup →
      List.foldl bumpKey acc l =
        acc.map (fun p => (p.1, p.2 + l.count p.1)) ++
          (firstSeenAux (acc.map Prod.fst) l).map (fun k => (k, l.count k)) := by
  induction l with
  | nil =>
    intro acc _
    simp [firstSeenAux]
  | cons e rest ih =>
    intro acc hnd
    rw [List.foldl_cons]
    by_cases hmem : e ∈ acc.map Prod.fst
    · have hbump := bumpKey_of_mem acc e hnd hmem
      have hkeys : (bumpKey acc e).map Prod.fst = acc.map Prod.fst := by
        rw [bumpKey_keys, if_pos hmem]
      have hnd2 : ((bumpKey acc e).map Prod.fst).Nodup := by rw [hkeys]; exact hnd
      rw [ih _ hnd2, hkeys]
      congr 1
      · rw [hbump, List.map_map]
        apply List.map_congr_left
        intro q _
        show (q.1, (if q.1 = e then q.2 + 1 else q.2) + List.count q.1 rest) =
          (q.1, q.2 + List.count q.1 (e :: rest))
        have hsnd : (if q.1 = e then q.2 + 1 else q.2) + List.count q.1 rest =
            q.2 + List.count q.1 (e :: rest) := by
          rw [List.count_cons]
          by_cases hq : q.1 = e
          · have he : (e == q.1) = true := by simp [hq]
            simp [hq, he]
            omega
          · have he : (e == q.1) = false := beq_false_of_ne (fun h => hq h.symm)
            simp [hq, he]
        rw [hsnd]
      · simp only [firstSeenAux, if_pos hmem]
        apply List.map_congr_left
        intro k hkmem
        have hk1 : k ≠ e := by
          intro he2
          exact mem_firstSeenAux_not_seen rest _ k hkmem (he2 ▸ hmem)
        have he : (e == k) = false := beq_false_of_ne (fun h => hk1 h.symm)
        simp [List.count_cons, he]
    · have hbump := bumpKey_of_not_mem acc e hmem
      have hkeys : (bumpKey acc e).map Prod.fst = acc.map Prod.fst ++ [e] := by
        rw [bumpKey_keys, if_neg hmem]
      have hnd2 : ((bumpKey acc e).map Prod.fst).Nodup := by
        rw [hkeys, List.nodup_append]
        exact ⟨hnd, List.nodup_singleton e, by simpa using hmem⟩
      rw [ih _ hnd2, hkeys, hbump]
      rw [List.map_append]
      have hacc : (acc.map (fun p => (p.1, p.2 + (e :: rest).count p.1))) =
          (acc.map (fun p => (p.1, p.2 + rest.count p.1))) := by
        apply List.map_congr_left
        intro q hq
        have hq1 : q.1 ≠ e := by
          intro he
          exact hmem (he ▸ List.mem_map_of_mem Prod.fst hq)
        have he : (e == q.1) = false := beq_false_of_ne (fun h => hq1 h.symm)
        simp [List.count_cons, he]
      have hseen : firstSeenAux (acc.map Prod.fst ++ [e]) rest =
          firstSeenAux (e :: acc.map Prod.fst) rest := by
        apply firstSeenAux_congr
        intro x
        simp only [List.mem_append, List.mem_singleton, List.mem_cons]
        tauto
      have hrest : (firstSeenAux (e :: acc.map Prod.fst) rest).map
            (fun k => (k, (e :: rest).count k)) =
          (firstSeenAux (e :: acc.map Prod.fst) rest).map
            (fun k => (k, rest.count k)) := by
        apply List.map_congr_left
        intro k hkmem
        have hk1 : k ≠ e := by
          intro he2
          exact mem_firstSeenAux_not_seen rest _ k hkmem
            (he2 ▸ List.mem_cons_self e _)
        have he : (e == k) = false := beq_false_of_ne (fun h => hk1 h.symm)
        simp [List.count_cons, he]
      rw [hseen, List.append_assoc, hacc]
      congr 1
      have hfs : firstSeenAux (acc.map Prod.fst) (e :: rest) =
          e :: firstSeenAux (e :: acc.map Prod.fst) rest := by
        simp [firstSeenAux, hmem]
      rw [hfs, List.map_cons, ← hrest]
      simp [List.count_cons, Nat.add_comm]

theorem codeCounts_eq_foldl (records : List ErrorRecord) :
    codeCounts records = List.foldl bumpKey [] (truthyCodes records) := by
  suffices h : ∀ acc, records.foldl
      (fun acc error =>
        match jsStr error.code with
        | some c => bumpKey acc c
        | none => acc) acc = (truthyCodes records).foldl bumpKey acc by
    exact h []
  unfold truthyCodes
  induction records with
  | nil => intro acc; rfl
  | cons e rest ih =>
    intro acc
    rcases hc : jsStr e.code with _ | c <;>
      simp [List.filterMap_cons, hc, ih]

theorem codeCounts_char (records : List ErrorRecord) :
    codeCounts records = codeFreqTable records := by
  rw [codeCounts_eq_foldl, foldl_bumpKey_char _ [] (by simp)]
  simp [codeFreqTable]

theorem jsEntries_of_no_idx (o : JsCounter)
    (h : ∀ p ∈ o, isArrayIdx p.1 = false) : jsEntries o = o := by
  unfold jsEntries
  have h1 : o.filter (fun p => isArrayIdx p.1) = [] := by
    rw [List.filter_eq_nil_iff]
    intro p hp
    simp [h p hp]
  have h2 : o.filter (fun p => !isArrayIdx p.1) = o := by
    rw [List.filter_eq_self]
    intro p hp
    simp [h p hp]
  rw [h1, h2]
  rfl

theorem topScan_char :
    ∀ (o : JsCounter) (m : Nat) (b : Option (Str × Nat)),
      topScan o m b =
        if m < maxCnt o then o.find? (fun p => p.2 == maxCnt o) else b := by
  intro o
  induction o with
  | nil => intro m b; simp [topScan, maxCnt]
  | cons p rest ih =>
    intro m b
    obtain ⟨c, n⟩ := p
    have hmax : maxCnt ((c, n) :: rest) = max n (maxCnt rest) := by
      simp [maxCnt]
    simp only [topScan, hmax]
    by_cases h1 : m < n
    · rw [if_pos h1, ih]
      by_cases h2 : n < maxCnt rest
      · have hm : max n (maxCnt rest) = maxCnt rest := by omega
        have hne : (n == maxCnt rest) = false :=
          beq_false_of_ne (show n ≠ maxCnt rest by omega)
        rw [if_pos h2, hm, if_pos (show m < maxCnt rest by omega)]
        simp [List.find?_cons, hne]
      · have hm : max n (maxCnt rest) = n := by omega
        rw [if_neg h2, hm, if_pos h1]
        simp [List.find?_cons]
    · rw [if_neg h1, ih]
      by_cases h2 : m < maxCnt rest
      · have hm : max n (maxCnt rest) = maxCnt rest := by omega
        have hne : (n == maxCnt rest) = false :=
          beq_false_of_ne (show n ≠ maxCnt rest by omega)
        rw [if_pos h2, hm, if_pos (show m < maxCnt rest by omega)]
        simp [List.find?_cons, hne]
      · rw [if_neg h2, if_neg (show ¬ m < max n (maxCnt rest) by omega)]

theorem maxCnt_attained :
    ∀ (o : JsCounter), o ≠ [] → ∃ p ∈ o, p.2 = maxCnt o := by
  intro o
  induction o with
  | nil => intro h; exact absurd rfl h
  | cons p rest ih =>
    intro _
    obtain ⟨c, n⟩ := p
    have hmax : maxCnt ((c, n) :: rest) = max n (maxCnt rest) := by
      simp [maxCnt]
    by_cases h2 : maxCnt rest ≤ n
    · exact ⟨(c, n), List.mem_cons_self _ _, by rw [hmax]; omega⟩
    · have hne : rest ≠ [] := by
        intro he
        rw [he] at h2
        simp [maxCnt] at h2
      rcases ih hne with ⟨q, hq, hq2⟩
      exact ⟨q, List.mem_cons_of_mem _ hq, by rw [hmax]; omega⟩

theorem mem_firstSeenAux_sub :
    ∀ (l seen : List Str) (x : Str), x ∈ firstSeenAux seen l → x ∈ l := by
  intro l
  induction l with
  | nil => intro seen x hx; simp [firstSeenAux] at hx
  | cons s rest ih =>
    intro seen x hx
    simp only [firstSeenAux] at hx
    by_cases hs : s ∈ seen
    · rw [if_pos hs] at hx
      exact List.mem_cons_of_mem s (ih seen x hx)
    · rw [if_neg hs] at hx
      rcases List.mem_cons.mp hx with rfl | hx2
      · exact List.mem_cons_self x rest
      · exact List.mem_cons_of_mem s (ih (s :: seen) x hx2)

theorem le_maxCnt :
    ∀ (o : JsCounter) (p : Str × Nat), p ∈ o → p.2 ≤ maxCnt o := by
  intro o
  induction o with
  | nil => intro p hp; simp at hp
  | cons q rest ih =>
    intro p hp
    have hmax : maxCnt (q :: rest) = max q.2 (maxCnt rest) := by simp [maxCnt]
    rcases List.mem_cons.mp hp with rfl | hp2
    · rw [hmax]; omega
    · have := ih p hp2
      rw [hmax]; omega

theorem maxCnt_codeFreqTable_pos (records : List ErrorRecord)
    (hc : truthyCodes records ≠ []) :
    0 < maxCnt (codeFreqTable records) := by
  have hTne : codeFreqTable records ≠ [] := by
    unfold codeFreqTable
    intro h
    rcases hl : truthyCodes records with _ | ⟨c, cs⟩
    · exact hc hl
    · rw [hl] at h
      simp [firstSeenAux] at h
  obtain ⟨p, hp, hp2⟩ := maxCnt_attained _ hTne
  unfold codeFreqTable at hp
  rcases List.mem_map.mp hp with ⟨k, hk, hpk⟩
  have hkmem : k ∈ truthyCodes records := mem_firstSeenAux_sub _ _ _ hk
  have hcount : 0 < (truthyCodes records).count k := List.count_pos_iff.mpr hkmem
  rw [← hp2, ← hpk]
  exact hcount

/-- C8 (amended).  Provided no truthy record code is a canonical array
index (JavaScript enumerates such object keys first, in numeric order, not
in insertion order) and none is an inherited `Object.prototype` property
name (for which the counting idiom degenerates), `getStats` returns as
`topCode` the first entry of the first-seen-ordered code-frequency table
whose count equals the maximal frequency — i.e. the earliest-inserted code
among the most frequent ones, with its frequency — and `topCode` is `none`
exactly when no record has a truthy `code`. -/
theorem getStats_topCode (groups : List Group) (records : List ErrorRecord)
    (hidx : ∀ c ∈ truthyCodes records, isArrayIdx c = false)
    (_hproto : ∀ c ∈ truthyCodes records, c ∉ objectProtoKeys) :
    (getStats groups records).topCode =
      (codeFreqTable records).find?
        (fun p => p.2 == maxCnt (codeFreqTable records)) ∧
      ((getStats groups records).topCode = none ↔ truthyCodes records = []) := by
  have hkeysmem : ∀ p ∈ codeFreqTable records, p.1 ∈ truthyCodes records := by
    intro p hp
    unfold codeFreqTable at hp
    rcases List.mem_map.mp hp with ⟨k, hk, hpk⟩
    rw [← hpk]
    exact mem_firstSeenAux_sub _ _ _ hk
  have hentries : jsEntries (codeCounts records) = codeFreqTable records := by
    rw [codeCounts_char]
    apply jsEntries_of_no_idx
    intro p hp
    exact hidx p.1 (hkeysmem p hp)
  have htop : (getStats groups records).topCode =
      topScan (jsEntries (codeCounts records)) 0 none := rfl
  rw [htop, hentries, topScan_char]
  by_cases hc : truthyCodes records = []
  · have hT : codeFreqTable records = [] := by
      simp [codeFreqTable, hc, firstSeenAux]
    simp [hT, maxCnt, hc]
  · have hpos := maxCnt_codeFreqTable_pos records hc
    rw [if_pos hpos]
    refine ⟨rfl, ?_⟩
    have hTne : codeFreqTable records ≠ [] := by
      intro h
      rw [h] at hpos
      simp [maxCnt] at hpos
    obtain ⟨p, hp, hp2⟩ := maxCnt_attained _ hTne
    have hsome : ((codeFreqTable records).find?
        (fun p => p.2 == maxCnt (codeFreqTable records))).isSome := by
      rw [List.find?_isSome]
      exact ⟨p, hp, by simp [hp2]⟩
    constructor
    · intro h
      rw [h] at hsome
      simp at hsome
    · intro h
      exact absurd h hc

/-- Counterexample for C8: with codes `A, 7, A, 7` the frequencies tie at
2, the claim predicts the earliest-inserted code `A`, but `Object.entries`
enumerates the array-index-like key `7` first, so the scan returns it. -/
theorem getStats_topCode_integer_key :
    (getStats []
      [{ code := some ['A'] }, { code := some ['7'] },
       { code := some ['A'] }, { code := some ['7'] }]).topCode =
        some (['7'], 2) ∧
      (getStats []
        [{ code := some ['A'] }, { code := some ['7'] },
         { code := some ['A'] }, { code := some ['7'] }]).topCode ≠
          some (['A'], 2) := by
  constructor
  · decide
  · decide

/-- Witness for C8 at a concrete record list. -/
theorem getStats_topCode_witness :
    (∀ c ∈ truthyCodes
        [{ code := some ['T', 'S', '1'] }, { code := some ['T', 'S', '1'] },
         { code := some ['T', 'S', '2'] }], isArrayIdx c = false) ∧
      (∀ c ∈ truthyCodes
        [{ code := some ['T', 'S', '1'] }, { code := some ['T', 'S', '1'] },
         { code := some ['T', 'S', '2'] }], c ∉ objectProtoKeys) ∧
      ((getStats []
        [{ code := some ['T', 'S', '1'] }, { code := some ['T', 'S', '1'] },
         { code := some ['T', 'S', '2'] }]).topCode =
        (codeFreqTable
          [{ code := some ['T', 'S', '1'] }, { code := some ['T', 'S', '1'] },
           { code := some ['T', 'S', '2'] }]).find?
          (fun p => p.2 == maxCnt (codeFreqTable
            [{ code := some ['T', 'S', '1'] }, { code := some ['T', 'S', '1'] },
             { code := some ['T', 'S', '2'] }])) ∧
        ((getStats []
          [{ code := some ['T', 'S', '1'] }, { code := some ['T', 'S', '1'] },
           { code := some ['T', 'S', '2'] }]).topCode = none ↔
          truthyCodes
            [{ code := some ['T', 'S', '1'] }, { code := some ['T', 'S', '1'] },
             { code := some ['T', 'S', '2'] }] = [])) :=
  ⟨by decide, by decide,
    getStats_topCode []
      [{ code := some ['T', 'S', '1'] }, { code := some ['T', 'S', '1'] },
       { code := some ['T', 'S', '2'] }] (by decide) (by decide)⟩

theorem parseErrorsGo_succ (fuel : Nat) (input forcedType : Str) :
    parseErrorsGo (fuel + 1) input forcedType =
      match patLookup (resolvedType input forcedType) with
      | .junk => .error ()
      | .found pat =>
        let errors := extractAll input pat
        if errors = [] ∧ resolvedType input forcedType ≠ ("generic").data then
          parseErrorsGo fuel input (("generic").data)
        else .ok errors
      | .missing =>
        let errors := extractAll input PATTERNS_generic
        if errors = [] ∧ resolvedType input forcedType ≠ ("generic").data then
          parseErrorsGo fuel input (("generic").data)
        else .ok errors := rfl

theorem resolvedType_generic (input : Str) :
    resolvedType input (("generic").data) = ("generic").data := by
  unfold resolvedType
  rw [if_neg (by decide)]

theorem parseErrorsGo_generic (fuel : Nat) (input : Str) :
    parseErrorsGo (fuel + 1) input (("generic").data) =
      .ok (extractAll input PATTERNS_generic) := by
  have h3 : ¬(extractAll input PATTERNS_generic = [] ∧
      resolvedType input (("generic").data) ≠ ("generic").data) := by
    rintro ⟨-, hne⟩
    exact hne (resolvedType_generic input)
  show (if extractAll input PATTERNS_generic = [] ∧
      resolvedType input (("generic").data) ≠ ("generic").data then
      parseErrorsGo fuel input (("generic").data)
    else Except.ok (extractAll input PATTERNS_generic)) =
    Except.ok (extractAll input PATTERNS_generic)
  rw [if_neg h3]

theorem parseErrors_generic (input : Str) :
    parseErrors input (("generic").data) = .ok (extractAll input PATTERNS_generic) :=
  parseErrorsGo_generic 1 input

theorem detectType_mem (input : Str) : detectType input ∈ categoryNames := by
  unfold detectType
  split_ifs <;> decide

theorem patLookup_junk_mem {ty : Str} (h : patLookup ty = .junk) :
    ty ∈ objectProtoKeys := by
  unfold patLookup at h
  split_ifs at h <;> first | assumption | exact PatLookup.noConfusion h

theorem patLookup_cat_found {ty : Str} (h : ty ∈ categoryNames) :
    ∃ p, patLookup ty = .found p := by
  simp only [categoryNames, List.mem_cons, List.mem_singleton,
    List.not_mem_nil, or_false] at h
  rcases h with rfl | rfl | rfl | rfl | rfl | rfl | rfl | rfl <;> exact ⟨_, rfl⟩

/-- C5.  For every input and forced category, when the resolved category is
scanned with an actual pattern (`PATTERNS[type] || PATTERNS.generic`, i.e.
the lookup does not hit an inherited non-pattern) and that scan yields no
records, a non-generic category triggers exactly one fallback re-scan with
the generic pattern whose result is returned; a generic resolved category
returns its own (possibly empty) scan result with no fallback. -/
theorem parseErrors_fallback (input forced ty : Str) (p : Pattern)
    (hty : ty = resolvedType input forced)
    (hpat : patternUsedFor ty = some p) :
    (ty ≠ ("generic").data → extractAll input p = [] →
      parseErrors input forced = .ok (extractAll input PATTERNS_generic)) ∧
    (ty = ("generic").data →
      parseErrors input forced = .ok (extractAll input p)) := by
  subst hty
  unfold patternUsedFor at hpat
  have hunfold : parseErrors input forced = parseErrorsGo (1 + 1) input forced := rfl
  cases hpl : patLookup (resolvedType input forced) with
  | found p0 =>
    rw [hpl] at hpat
    simp only [Option.some.injEq] at hpat
    subst hpat
    rw [hunfold, parseErrorsGo_succ]
    simp only [hpl]
    constructor
    · intro hne hext
      rw [if_pos ⟨hext, hne⟩]
      exact parseErrorsGo_generic 0 input
    · intro hgen
      rw [if_neg (by simp [hgen])]
  | junk =>
    rw [hpl] at hpat
    simp at hpat
  | missing =>
    rw [hpl] at hpat
    simp only [Option.some.injEq] at hpat
    subst hpat
    rw [hunfold, parseErrorsGo_succ]
    simp only [hpl]
    constructor
    · intro hne hext
      rw [if_pos ⟨hext, hne⟩]
      exact parseErrorsGo_generic 0 input
    · intro hgen
      rw [hgen] at hpl
      have hfound : patLookup (("generic").data) = .found PATTERNS_generic := rfl
      rw [hfound] at hpl
      exact PatLookup.noConfusion hpl

/-- Witness for C5: the `rust` pattern finds nothing in the empty input, so
`parseErrors` returns the generic re-scan result. -/
theorem parseErrors_fallback_witness :
    (("rust").data = resolvedType [] (("rust").data)) ∧
      patternUsedFor (("rust").data) = some PATTERNS_rust ∧
      (("rust").data ≠ ("generic").data) ∧
      extractAll [] PATTERNS_rust = [] ∧
      parseErrors [] (("rust").data) = .ok (extractAll [] PATTERNS_generic) :=
  ⟨rfl, rfl, by decide, rfl,
    (parseErrors_fallback [] (("rust").data) (("rust").data) PATTERNS_rust rfl rfl).1
      (by decide) rfl⟩

theorem parseErrors_isOk (input forced : Str) (h : forced ∉ objectProtoKeys) :
    (parseErrors input forced).isOk = true := by
  have hty : resolvedType input forced ∉ objectProtoKeys ∨
      resolvedType input forced ∈ categoryNames := by
    unfold resolvedType
    by_cases ha : forced = ("auto").data
    · rw [if_pos ha]
      exact Or.inr (detectType_mem input)
    · rw [if_neg ha]
      exact Or.inl h
  have hunfold : parseErrors input forced = parseErrorsGo (1 + 1) input forced := rfl
  rw [hunfold, parseErrorsGo_succ]
  cases hpl : patLookup (resolvedType input forced) with
  | found p0 =>
    simp only
    split_ifs
    · rw [show parseErrorsGo 1 input (("generic").data) =
        .ok (extractAll input PATTERNS_generic) from parseErrorsGo_generic 0 input]
      rfl
    · rfl
  | junk =>
    have hmem := patLookup_junk_mem hpl
    rcases hty with hno | hcat
    · exact absurd hmem hno
    · obtain ⟨p, hp⟩ := patLookup_cat_found hcat
      rw [hp] at hpl
      exact PatLookup.noConfusion hpl
  | missing =>
    simp only
    split_ifs
    · rw [show parseErrorsGo 1 input (("generic").data) =
        .ok (extractAll input PATTERNS_generic) from parseErrorsGo_generic 0 input]
      rfl
    · rfl

/-- C9 (amended).  `detectType` always returns a member of the fixed
category set (defaulting to `generic`), and `parseErrors` terminates and
returns a value without throwing for every input string and every category
argument that is not an inherited property name of `Object.prototype`; for
those pathological names the unvalidated lookup `PATTERNS[type]` finds a
truthy non-pattern and `pattern.regex.lastIndex = 0` throws a `TypeError`. -/
theorem core_totality :
    (∀ input : Str, detectType input ∈ categoryNames) ∧
      (∀ (input forced : Str), forced ∉ objectProtoKeys →
        (parseErrors input forced).isOk = true) :=
  ⟨detectType_mem, fun input forced h => parseErrors_isOk input forced h⟩

/-- Witness for C9 at a concrete category. -/
theorem core_totality_witness :
    (("go").data ∉ objectProtoKeys) ∧
      (parseErrors [] (("go").data)).isOk = true :=
  ⟨by decide, core_totality.2 [] (("go").data) (by decide)⟩

/-- Counterexample for C9: forcing the category `valueOf` makes
`parseErrors` throw (the claim says it never throws for any category
argument). -/
theorem parseErrors_throws_on_proto_key :
    parseErrors [] (("valueOf").data) = .error () := rfl

theorem genericExtract_ty (m : JsMatch) (r : ErrorRecord)
    (h : genericExtract m = some r) : r.ty = some (("generic").data) := by
  unfold genericExtract at h
  rcases h1 : m.grp 1 with _ | g1
  · simp [h1] at h
  · rcases h2 : m.grp 2 with _ | g2
    · simp [h1, h2] at h
    · rw [h1, h2] at h
      injection h with h3
      rw [← h3]

theorem extractAll_generic_ty (input : Str) (r : ErrorRecord)
    (hr : r ∈ extractAll input PATTERNS_generic) :
    r.ty = some (("generic").data) := by
  unfold extractAll at hr
  rcases List.mem_filterMap.mp hr with ⟨t, _, hf⟩
  rcases hmap : PATTERNS_generic.extract
      { input := input, index := t.1, stop := t.2.1, caps := t.2.2 } with _ | r0
  · rw [hmap] at hf
    simp at hf
  · rw [hmap] at hf
    simp only [Option.map_some'] at hf
    injection hf with hf2
    have hty0 : r0.ty = some (("generic").data) :=
      genericExtract_ty _ r0 hmap
    rw [← hf2]
    exact hty0

/-- C10 (amended).  For every category string outside the fixed set, other
than the sentinel `auto` and the inherited property names of
`Object.prototype`, `parseErrors` behaves exactly as with `generic`: the
lookup misses, the generic pattern is scanned (twice when it finds
nothing, through the fallback), the result equals `parseErrors(text,
'generic')`, and every produced record has type `generic`. -/
theorem unknown_category_generic (input cat : Str)
    (hcat : cat ∉ categoryNames) (hauto : cat ≠ ("auto").data)
    (hproto : cat ∉ objectProtoKeys) :
    parseErrors input cat = parseErrors input (("generic").data) ∧
      (∀ l, parseErrors input cat = .ok l →
        ∀ r ∈ l, r.ty = some (("generic").data)) := by
  have hres : resolvedType input cat = cat := by
    unfold resolvedType
    rw [if_neg hauto]
  have hmissing : patLookup cat = .missing := by
    have n1 : cat ≠ ("typescript").data := by
      intro h; rw [h] at hcat; exact hcat (by decide)
    have n2 : cat ≠ ("eslint").data := by
      intro h; rw [h] at hcat; exact hcat (by decide)
    have n3 : cat ≠ ("jest").data := by
      intro h; rw [h] at hcat; exact hcat (by decide)
    have n4 : cat ≠ ("python").data := by
      intro h; rw [h] at hcat; exact hcat (by decide)
    have n5 : cat ≠ ("rust").data := by
      intro h; rw [h] at hcat; exact hcat (by decide)
    have n6 : cat ≠ ("go").data := by
      intro h; rw [h] at hcat; exact hcat (by decide)
    have n7 : cat ≠ ("gcc").data := by
      intro h; rw [h] at hcat; exact hcat (by decide)
    have n8 : cat ≠ ("generic").data := by
      intro h; rw [h] at hcat; exact hcat (by decide)
    unfold patLookup
    rw [if_neg n1, if_neg n2, if_neg n3, if_neg n4, if_neg n5, if_neg n6,
      if_neg n7, if_neg n8, if_neg hproto]
  have hval : parseErrors input cat = .ok (extractAll input PATTERNS_generic) := by
    have hunfold : parseErrors input cat = parseErrorsGo (1 + 1) input cat := rfl
    rw [hunfold, parseErrorsGo_succ]
    simp only [hres, hmissing]
    split_ifs with hcond
    · exact parseErrorsGo_generic 0 input
    · rfl
  refine ⟨?_, ?_⟩
  · rw [hval, parseErrors_generic]
  · intro l hl r hr
    rw [hval] at hl
    injection hl with hl2
    rw [← hl2] at hr
    exact extractAll_generic_ty input r hr

/-- Counterexample for C10: the category `toString` is outside the fixed
set, yet `parseErrors` throws instead of behaving like `generic`. -/
theorem unknown_category_toString :
    parseErrors (['x']) (("toString").data) ≠
      parseErrors (['x']) (("generic").data) := by
  intro h
  have h2 := congrArg Except.isOk h
  rw [show parseErrors (['x']) (("toString").data) = .error () from rfl,
    parseErrors_generic] at h2
  simp [Except.isOk, Except.toBool] at h2

/-- Witness for C10 at a misspelled category. -/
theorem unknown_category_generic_witness :
    (("typescrpt").data ∉ categoryNames) ∧
      (("typescrpt").data ≠ ("auto").data) ∧
      (("typescrpt").data ∉ objectProtoKeys) ∧
      (parseErrors (("Error: x").data) (("typescrpt").data) =
        parseErrors (("Error: x").data) (("generic").data) ∧
      (∀ l, parseErrors (("Error: x").data) (("typescrpt").data) = .ok l →
        ∀ r ∈ l, r.ty = some (("generic").data))) :=
  ⟨by decide, by decide, by decide,
    unknown_category_generic (("Error: x").data) (("typescrpt").data)
      (by decide) (by decide) (by decide)⟩

end Errsum
